import Mathlib

/-!
Verification of the Red-Carduh workout application core: the exercise
catalog, the plan generator, the session state machine, the completion
ledger and its derived phase/progress values, and the energy/duration
accounting, shallowly embedded from the TypeScript source.

Conventions of the embedding:
* JavaScript numbers used for MET values, body weight and calories are
  modelled as rationals; day numbers, indices, rep counts and timestamps
  are naturals (timestamps in milliseconds, as produced by Date.now).
* Math.round is the rational round (ties away from the floor, i.e.
  toward positive infinity), matching JavaScript on the exact values
  that arise here; Math.floor on nonnegative quotients is natural
  division.
* The React state of the App component (session, completedDays,
  lastStats, view, config, userData.weight) is collected in AppState;
  each event handler of the source becomes a function AppState to
  AppState, and the rest-timer useEffect becomes the step function
  restTimerStep.
-/

namespace RedCard

/-- A catalog entry: id, name, body-part category, MET intensity, baseline reps. -/
structure Exercise where
  id : String
  name : String
  category : String
  met : ℚ
  baseReps : ℤ
deriving DecidableEq

/-- The fixed category order of the source (CATEGORIES constant). -/
def CATEGORIES : List String := ["Arms & Biceps", "Legs", "Shoulders", "Abs", "Back"]

/-- The exercise catalog (EXERCISES constant), in declaration order. -/
def EXERCISES : List Exercise := [
  ⟨"e1", "Push-ups", "Arms & Biceps", 8, 10⟩,
  ⟨"e2", "Diamond Push-ups", "Arms & Biceps", 8.5, 8⟩,
  ⟨"e3", "Bicep Curls", "Arms & Biceps", 4, 15⟩,
  ⟨"e14", "Tricep Dips", "Arms & Biceps", 5, 12⟩,
  ⟨"e15", "Hammer Curls", "Arms & Biceps", 4, 15⟩,
  ⟨"e4", "Squats", "Legs", 5, 15⟩,
  ⟨"e5", "Lunges", "Legs", 5.5, 12⟩,
  ⟨"e6", "Calf Raises", "Legs", 3.5, 20⟩,
  ⟨"e16", "Bulgarian Split Squats", "Legs", 6, 10⟩,
  ⟨"e17", "Glute Bridges", "Legs", 4, 15⟩,
  ⟨"e7", "Shoulder Taps", "Shoulders", 4.5, 20⟩,
  ⟨"e8", "Pike Push-ups", "Shoulders", 6, 8⟩,
  ⟨"e18", "Lateral Raises", "Shoulders", 4, 12⟩,
  ⟨"e19", "Front Raises", "Shoulders", 4, 12⟩,
  ⟨"e9", "Crunches", "Abs", 3.8, 20⟩,
  ⟨"e10", "Plank", "Abs", 4, 30⟩,
  ⟨"e11", "Leg Raises", "Abs", 4, 12⟩,
  ⟨"e20", "Russian Twists", "Abs", 4.5, 20⟩,
  ⟨"e21", "Mountain Climbers", "Abs", 8, 30⟩,
  ⟨"e12", "Superman", "Back", 4, 12⟩,
  ⟨"e13", "Bird Dog", "Back", 3.5, 15⟩,
  ⟨"e22", "Reverse Flys", "Back", 4, 12⟩,
  ⟨"e23", "Cat-Cow", "Back", 2.5, 10⟩]

/-- A plan item: a catalog exercise together with its day-scaled rep target. -/
structure PlanItem where
  base : Exercise
  reps : ℤ
deriving DecidableEq

/-- Placeholder for out-of-range catalog indexing (never hit on the real catalog). -/
def defaultExercise : Exercise := ⟨"", "", "", 0, 0⟩

/-- The day intensity factor of getWorkoutForDay: 1 + (day - 1) * 0.05. -/
def intensity (day : ℕ) : ℚ := 1 + ((day : ℚ) - 1) * 0.05

/-- getWorkoutForDay from the source: with a focus category, every catalog
exercise of that category in declaration order; otherwise one exercise per
category in the fixed CATEGORIES order, rotating by day within the
category; reps are baseReps times the day intensity, rounded. -/
def getWorkoutForDay (day : ℕ) (focusCategory : Option String) : List PlanItem :=
  match focusCategory with
  | some cat =>
      (EXERCISES.filter (fun e => e.category == cat)).map
        (fun base => ⟨base, round ((base.baseReps : ℚ) * intensity day)⟩)
  | none =>
      CATEGORIES.map (fun cat =>
        let catExercises := EXERCISES.filter (fun e => e.category == cat)
        let base := catExercises.getD (day % catExercises.length) defaultExercise
        ⟨base, round ((base.baseReps : ℚ) * intensity day)⟩)

/-- The exercises of the Arms & Biceps category, in catalog declaration order. -/
def armsCatalog : List Exercise := [
  ⟨"e1", "Push-ups", "Arms & Biceps", 8, 10⟩,
  ⟨"e2", "Diamond Push-ups", "Arms & Biceps", 8.5, 8⟩,
  ⟨"e3", "Bicep Curls", "Arms & Biceps", 4, 15⟩,
  ⟨"e14", "Tricep Dips", "Arms & Biceps", 5, 12⟩,
  ⟨"e15", "Hammer Curls", "Arms & Biceps", 4, 15⟩]

/-- The exercises of the Legs category, in catalog declaration order. -/
def legsCatalog : List Exercise := [
  ⟨"e4", "Squats", "Legs", 5, 15⟩,
  ⟨"e5", "Lunges", "Legs", 5.5, 12⟩,
  ⟨"e6", "Calf Raises", "Legs", 3.5, 20⟩,
  ⟨"e16", "Bulgarian Split Squats", "Legs", 6, 10⟩,
  ⟨"e17", "Glute Bridges", "Legs", 4, 15⟩]

/-- The exercises of the Shoulders category, in catalog declaration order. -/
def shouldersCatalog : List Exercise := [
  ⟨"e7", "Shoulder Taps", "Shoulders", 4.5, 20⟩,
  ⟨"e8", "Pike Push-ups", "Shoulders", 6, 8⟩,
  ⟨"e18", "Lateral Raises", "Shoulders", 4, 12⟩,
  ⟨"e19", "Front Raises", "Shoulders", 4, 12⟩]

/-- The exercises of the Abs category, in catalog declaration order. -/
def absCatalog : List Exercise := [
  ⟨"e9", "Crunches", "Abs", 3.8, 20⟩,
  ⟨"e10", "Plank", "Abs", 4, 30⟩,
  ⟨"e11", "Leg Raises", "Abs", 4, 12⟩,
  ⟨"e20", "Russian Twists", "Abs", 4.5, 20⟩,
  ⟨"e21", "Mountain Climbers", "Abs", 8, 30⟩]

/-- The exercises of the Back category, in catalog declaration order. -/
def backCatalog : List Exercise := [
  ⟨"e12", "Superman", "Back", 4, 12⟩,
  ⟨"e13", "Bird Dog", "Back", 3.5, 15⟩,
  ⟨"e22", "Reverse Flys", "Back", 4, 12⟩,
  ⟨"e23", "Cat-Cow", "Back", 2.5, 10⟩]

/-- Modelled from the words of the specification, for comparison with the
source function: one plan item per category in the fixed category order;
for a category with catalog sublist c the selected exercise is the entry
at index day mod length of c, and its reps are baseReps scaled by the day
intensity and rounded. -/
def specItem (c : List Exercise) (day : ℕ) : PlanItem :=
  let base := c.getD (day % c.length) defaultExercise
  ⟨base, round ((base.baseReps : ℚ) * (1 + ((day : ℚ) - 1) * 0.05))⟩

/-- Modelled from the words of the specification: the no-focus plan is one
item per category, in the fixed category order. -/
def specGeneratePlan (day : ℕ) : List PlanItem :=
  [specItem armsCatalog day, specItem legsCatalog day, specItem shouldersCatalog day,
   specItem absCatalog day, specItem backCatalog day]

/-- The workout configuration: session duration in minutes, rest duration in seconds. -/
structure WorkoutConfig where
  sessionDuration : ℕ
  restDuration : ℕ
deriving DecidableEq

/-- The SessionState record of the source. Timestamps are in milliseconds. -/
structure SessionState where
  isActive : Bool
  currentDay : ℕ
  currentExerciseIndex : ℕ
  isResting : Bool
  restTimeLeft : ℕ
  startTime : Option ℕ
  focusCategory : Option String
deriving DecidableEq

/-- The lastStats record set at session completion: rounded calories and whole minutes. -/
structure Stats where
  calories : ℤ
  duration : ℕ
deriving DecidableEq

/-- The view tag of the App component. -/
inductive View
  | onboarding
  | dashboard
  | workout
  | settings
  | summary
  | progress
deriving DecidableEq

/-- The React state of the App component that the core logic touches. -/
structure AppState where
  session : SessionState
  completedDays : List ℕ
  lastStats : Option Stats
  view : View
  config : WorkoutConfig
  weight : ℚ
deriving DecidableEq

/-- One insertion step of a JavaScript Set built from a list: keep the first
occurrence, ignore a repeated element. -/
def jsIns (acc : List ℕ) (x : ℕ) : List ℕ :=
  if x ∈ acc then acc else acc ++ [x]

/-- The list produced by spreading a JavaScript Set constructed from a list:
the elements in first-occurrence order. -/
def jsSetDedup (l : List ℕ) : List ℕ :=
  l.foldl jsIns []

/-- The ledger update of the source: spreading new Set of prev with the day
appended, as in setCompletedDays. -/
def recordCompletion (l : List ℕ) (day : ℕ) : List ℕ :=
  jsSetDedup (l ++ [day])

/-- calculateCalories from the source: met times body weight times hours. -/
def calculateCalories (weight met durationSec : ℚ) : ℚ :=
  met * weight * (durationSec / 3600)

/-- The expression session.startTime or Date.now in the source: a JavaScript
falsy check, so both a missing and a zero start time fall back to now. -/
def orNow (t : Option ℕ) (now : ℕ) : ℕ :=
  match t with
  | none => now
  | some v => if v = 0 then now else v

/-- currentWorkout of the source: the plan generated for the session day and focus. -/
def currentWorkout (s : SessionState) : List PlanItem :=
  getWorkoutForDay s.currentDay s.focusCategory

/-- The length of the plan of a session. -/
def planLen (s : SessionState) : ℕ :=
  (currentWorkout s).length

/-- startWorkout from the source. -/
def startWorkout (day : ℕ) (focusCategory : Option String) (now : ℕ)
    (st : AppState) : AppState :=
  { st with
    session :=
      { isActive := true, currentDay := day, currentExerciseIndex := 0,
        isResting := false, restTimeLeft := st.config.restDuration,
        startTime := some now, focusCategory := focusCategory },
    view := View.workout }

/-- nextExercise from the source: before the last exercise it enters the rest
state with the configured rest duration; on the last exercise it computes the
summary, records the day in the ledger, shows the summary view and deactivates
the session. -/
def nextExercise (now : ℕ) (st : AppState) : AppState :=
  let workout := currentWorkout st.session
  if st.session.currentExerciseIndex < workout.length - 1 then
    { st with
      session :=
        { st.session with isResting := true, restTimeLeft := st.config.restDuration } }
  else
    let durationMin := (now - orNow st.session.startTime now) / 60000
    let totalCals :=
      workout.foldl (fun acc ex => acc + calculateCalories st.weight ex.base.met 60) 0
    { st with
      lastStats := some ⟨round totalCals, durationMin⟩,
      completedDays := recordCompletion st.completedDays st.session.currentDay,
      view := View.summary,
      session := { st.session with isActive := false } }

/-- skipToNextExercise from the source. -/
def skipToNextExercise (st : AppState) : AppState :=
  if st.session.currentExerciseIndex < (currentWorkout st.session).length - 1 then
    { st with
      session :=
        { st.session with
          isResting := false,
          currentExerciseIndex := st.session.currentExerciseIndex + 1 } }
  else st

/-- previousExercise from the source. -/
def previousExercise (st : AppState) : AppState :=
  if 0 < st.session.currentExerciseIndex then
    { st with
      session :=
        { st.session with
          isResting := false,
          currentExerciseIndex := st.session.currentExerciseIndex - 1 } }
  else st

/-- One evaluation of the rest-timer useEffect of the source: while active,
resting and time remains, one interval tick decrements the countdown; when the
countdown is zero while still resting, it leaves the rest state and advances
to the next exercise; otherwise nothing happens. -/
def restTimerStep (st : AppState) : AppState :=
  if st.session.isActive = true ∧ st.session.isResting = true ∧
      0 < st.session.restTimeLeft then
    { st with
      session := { st.session with restTimeLeft := st.session.restTimeLeft - 1 } }
  else if st.session.restTimeLeft = 0 ∧ st.session.isResting = true then
    { st with
      session :=
        { st.session with
          isResting := false,
          currentExerciseIndex := st.session.currentExerciseIndex + 1 } }
  else st

/-- The SKIP RECOVERY button of the source: forces the rest countdown to zero. -/
def skipRest (st : AppState) : AppState :=
  { st with session := { st.session with restTimeLeft := 0 } }

/-- The ABORT button of the source WorkoutView: its handler only navigates
back to the dashboard view. -/
def abortWorkout (st : AppState) : AppState :=
  { st with view := View.dashboard }

/-- The rest-duration adjustment and settings sliders: replace the config. -/
def setConfig (cfg : WorkoutConfig) (st : AppState) : AppState :=
  { st with config := cfg }

/-- The weight update of the settings and onboarding views. -/
def setWeight (w : ℚ) (st : AppState) : AppState :=
  { st with weight := w }

/-- The navigation buttons: replace the view tag. -/
def setView (v : View) (st : AppState) : AppState :=
  { st with view := v }

/-- The events the App component can process, as a step relation. A workout is
started either with no focus or with a focus chosen from the category buttons,
whose labels range over CATEGORIES. -/
inductive Step : AppState → AppState → Prop
  | start (day : ℕ) (cat : Option String) (now : ℕ) (st : AppState)
      (hcat : ∀ c, cat = some c → c ∈ CATEGORIES) :
      Step st (startWorkout day cat now st)
  | next (now : ℕ) (st : AppState) : Step st (nextExercise now st)
  | skipForwardBtn (st : AppState) : Step st (skipToNextExercise st)
  | skipBackwardBtn (st : AppState) : Step st (previousExercise st)
  | timer (st : AppState) : Step st (restTimerStep st)
  | skipRestBtn (st : AppState) : Step st (skipRest st)
  | abortBtn (st : AppState) : Step st (abortWorkout st)
  | configBtn (cfg : WorkoutConfig) (st : AppState) : Step st (setConfig cfg st)
  | weightBtn (w : ℚ) (st : AppState) : Step st (setWeight w st)
  | viewBtn (v : View) (st : AppState) : Step st (setView v st)

/-- The initial session value of the useState call of the source. -/
def initialSession (cfg : WorkoutConfig) : SessionState :=
  { isActive := false, currentDay := 1, currentExerciseIndex := 0,
    isResting := false, restTimeLeft := cfg.restDuration,
    startTime := none, focusCategory := none }

/-- The app states reachable from a fresh launch (arbitrary persisted ledger,
config, weight and initial view) by the events of the source. -/
inductive Reachable : AppState → Prop
  | init (cfg : WorkoutConfig) (w : ℚ) (l : List ℕ) (v : View) (ls : Option Stats) :
      Reachable ⟨initialSession cfg, l, ls, v, cfg, w⟩
  | step {s t : AppState} : Reachable s → Step s t → Reachable t

/-- The session invariant: the exercise index is inside the plan, the plan is
nonempty, and while resting the index is not yet the last one. -/
def Inv (st : AppState) : Prop :=
  st.session.currentExerciseIndex < planLen st.session ∧
  0 < planLen st.session ∧
  (st.session.isResting = true → st.session.currentExerciseIndex + 1 < planLen st.session)

/-- currentPhase of the source: floor of the ledger size over 30, plus one. -/
def currentPhase (l : List ℕ) : ℕ := l.length / 30 + 1

/-- phaseDayOffset of the source: the first day of the current phase, minus one. -/
def phaseDayOffset (l : List ℕ) : ℕ := (currentPhase l - 1) * 30

/-- phaseProgress of the source: how many completed days fall inside the
current 30-day phase window. -/
def phaseProgress (l : List ℕ) : ℕ :=
  (l.filter (fun d => phaseDayOffset l < d && d ≤ phaseDayOffset l + 30)).length

/-- The 30 day numbers shown in the dashboard grid of the current phase. -/
def gridDays (l : List ℕ) : List ℕ :=
  (List.range 30).map (fun i => phaseDayOffset l + i + 1)

/-- Math.max over the ledger (the ledger holds positive days). -/
def maxOfList (l : List ℕ) : ℕ := l.foldl max 0

/-- The next-day expression of the source dashboard (line defining isNext):
max of the ledger plus one if the ledger is nonempty, else one. -/
def nextAvailableDay (l : List ℕ) : ℕ :=
  if 0 < l.length then maxOfList l + 1 else 1

/-- The locked overlay condition of the source dashboard grid: the day is not
done, is not the next day, and exceeds the ledger size plus one. -/
def lockedOverlayShown (l : List ℕ) (day : ℕ) : Bool :=
  !(l.contains day) && !(day == nextAvailableDay l) && (l.length + 1 < day)

/-- The contiguous ledger holding exactly the days 1 to k. -/
def ledgerUpTo (k : ℕ) : List ℕ := (List.range k).map (· + 1)

/-- A fresh app state as loaded on first launch: no completed days, default config. -/
def sampleInit : AppState :=
  ⟨initialSession ⟨30, 30⟩, [], none, View.dashboard, ⟨30, 30⟩, 70⟩

/-- An active no-focus day-1 session on the first exercise. -/
def sampleActive : AppState :=
  ⟨⟨true, 1, 0, false, 30, some 1000, none⟩, [], none, View.workout, ⟨30, 30⟩, 70⟩

/-- An active no-focus day-1 session on the last exercise (index 4 of 5). -/
def sampleLast : AppState :=
  ⟨⟨true, 1, 4, false, 30, some 1000, none⟩, [], none, View.workout, ⟨30, 30⟩, 70⟩

/-- An active resting session with one second of rest remaining. -/
def sampleResting : AppState :=
  ⟨⟨true, 1, 0, true, 1, some 1000, none⟩, [], none, View.workout, ⟨30, 30⟩, 70⟩

/-- An active resting session with ten seconds of rest remaining. -/
def sampleRestTen : AppState :=
  ⟨⟨true, 1, 0, true, 10, some 1000, none⟩, [], none, View.workout, ⟨30, 30⟩, 70⟩

lemma filter_arms :
    EXERCISES.filter (fun e => e.category == "Arms & Biceps") = armsCatalog := by
  simp [EXERCISES, armsCatalog]

lemma filter_legs :
    EXERCISES.filter (fun e => e.category == "Legs") = legsCatalog := by
  simp [EXERCISES, legsCatalog]

lemma filter_shoulders :
    EXERCISES.filter (fun e => e.category == "Shoulders") = shouldersCatalog := by
  simp [EXERCISES, shouldersCatalog]

lemma filter_abs :
    EXERCISES.filter (fun e => e.category == "Abs") = absCatalog := by
  simp [EXERCISES, absCatalog]

lemma filter_back :
    EXERCISES.filter (fun e => e.category == "Back") = backCatalog := by
  simp [EXERCISES, backCatalog]

example : (getWorkoutForDay 1 none).length = 5 := by decide
example : (getWorkoutForDay 1 none).map (fun it => it.reps) = [8, 12, 8, 30, 15] := by
  simp [getWorkoutForDay, CATEGORIES, filter_arms, filter_legs, filter_shoulders,
    filter_abs, filter_back, armsCatalog, legsCatalog, shouldersCatalog, absCatalog,
    backCatalog, intensity]

lemma mem_jsIns {x y : ℕ} {acc : List ℕ} : x ∈ jsIns acc y ↔ x ∈ acc ∨ x = y := by
  unfold jsIns
  by_cases h : y ∈ acc
  · simp only [if_pos h]
    constructor
    · exact fun hx => Or.inl hx
    · rintro (hx | rfl)
      · exact hx
      · exact h
  · simp [if_neg h]

lemma jsIns_of_mem {y : ℕ} {acc : List ℕ} (h : y ∈ acc) : jsIns acc y = acc := by
  simp [jsIns, h]

lemma nodup_jsIns {y : ℕ} {acc : List ℕ} (h : acc.Nodup) : (jsIns acc y).Nodup := by
  unfold jsIns
  by_cases hy : y ∈ acc
  · simpa [if_pos hy]
  · simp only [if_neg hy]
    simpa [List.nodup_append] using ⟨h, fun hmem => hy hmem⟩

lemma mem_foldl_jsIns (x : ℕ) (l acc : List ℕ) :
    x ∈ l.foldl jsIns acc ↔ x ∈ acc ∨ x ∈ l := by
  induction l generalizing acc with
  | nil => simp
  | cons y ys ih =>
      simp only [List.foldl_cons, ih, mem_jsIns, List.mem_cons]
      tauto

lemma nodup_foldl_jsIns (l : List ℕ) {acc : List ℕ} (h : acc.Nodup) :
    (l.foldl jsIns acc).Nodup := by
  induction l generalizing acc with
  | nil => simpa
  | cons y ys ih => exact ih (nodup_jsIns h)

lemma foldl_jsIns_of_disjoint (l : List ℕ) {acc : List ℕ}
    (hd : ∀ x ∈ l, x ∉ acc) (hn : l.Nodup) : l.foldl jsIns acc = acc ++ l := by
  induction l generalizing acc with
  | nil => simp
  | cons y ys ih =>
      have hy : y ∉ acc := hd y (List.mem_cons_self y ys)
      have hstep : jsIns acc y = acc ++ [y] := by simp [jsIns, hy]
      rw [List.foldl_cons, hstep,
        ih (fun x hx => by
          simp only [List.mem_append, List.mem_singleton]
          rintro (hxa | rfl)
          · exact hd x (List.mem_cons_of_mem y hx) hxa
          · exact (List.nodup_cons.mp hn).1 hx)
          (List.nodup_cons.mp hn).2]
      simp

lemma jsSetDedup_of_nodup {l : List ℕ} (h : l.Nodup) : jsSetDedup l = l := by
  simpa [jsSetDedup] using foldl_jsIns_of_disjoint l (by simp) h

lemma nodup_jsSetDedup (l : List ℕ) : (jsSetDedup l).Nodup :=
  nodup_foldl_jsIns l List.nodup_nil

lemma mem_jsSetDedup {x : ℕ} {l : List ℕ} : x ∈ jsSetDedup l ↔ x ∈ l := by
  simp [jsSetDedup, mem_foldl_jsIns]

lemma recordCompletion_eq_jsIns (l : List ℕ) (d : ℕ) :
    recordCompletion l d = jsIns (jsSetDedup l) d := by
  simp [recordCompletion, jsSetDedup, List.foldl_append]

lemma mem_recordCompletion_self (l : List ℕ) (d : ℕ) : d ∈ recordCompletion l d := by
  rw [recordCompletion_eq_jsIns]
  exact mem_jsIns.mpr (Or.inr rfl)

lemma nodup_recordCompletion (l : List ℕ) (d : ℕ) : (recordCompletion l d).Nodup := by
  rw [recordCompletion_eq_jsIns]
  exact nodup_jsIns (nodup_jsSetDedup l)

lemma mem_ledgerUpTo {k d : ℕ} : d ∈ ledgerUpTo k ↔ 1 ≤ d ∧ d ≤ k := by
  simp only [ledgerUpTo, List.mem_map, List.mem_range]
  constructor
  · rintro ⟨i, hi, rfl⟩
    omega
  · rintro ⟨h1, h2⟩
    exact ⟨d - 1, by omega, by omega⟩

lemma length_ledgerUpTo (k : ℕ) : (ledgerUpTo k).length = k := by
  simp [ledgerUpTo]

lemma maxOfList_ledgerUpTo (k : ℕ) : maxOfList (ledgerUpTo k) = k := by
  induction k with
  | zero => simp [maxOfList, ledgerUpTo]
  | succ n ih =>
      have hsplit : ledgerUpTo (n + 1) = ledgerUpTo n ++ [n + 1] := by
        simp [ledgerUpTo, List.range_succ]
      rw [maxOfList, hsplit, List.foldl_append]
      have : (ledgerUpTo n).foldl max 0 = n := ih
      simp [this]

lemma nextAvailableDay_ledgerUpTo (k : ℕ) : nextAvailableDay (ledgerUpTo k) = k + 1 := by
  cases k with
  | zero => simp [nextAvailableDay, ledgerUpTo]
  | succ n =>
      rw [nextAvailableDay, if_pos (by simp [length_ledgerUpTo]),
        maxOfList_ledgerUpTo]

lemma planLen_session_update_rest (s : SessionState) (b : Bool) (n : ℕ) :
    planLen { s with isResting := b, restTimeLeft := n } = planLen s := rfl

lemma planLen_session_update_idx (s : SessionState) (b : Bool) (i : ℕ) :
    planLen { s with isResting := b, currentExerciseIndex := i } = planLen s := rfl

lemma planLen_session_update_active (s : SessionState) (b : Bool) :
    planLen { s with isActive := b } = planLen s := rfl

lemma planLen_session_update_left (s : SessionState) (n : ℕ) :
    planLen { s with restTimeLeft := n } = planLen s := rfl

lemma planLen_pos (day : ℕ) (cat : Option String)
    (hcat : ∀ c, cat = some c → c ∈ CATEGORIES) :
    0 < (getWorkoutForDay day cat).length := by
  cases cat with
  | none => simp [getWorkoutForDay, CATEGORIES]
  | some c =>
      have hc : c ∈ CATEGORIES := hcat c rfl
      simp only [CATEGORIES, List.mem_cons, List.not_mem_nil, or_false] at hc
      rcases hc with rfl | rfl | rfl | rfl | rfl
      · simp [getWorkoutForDay, filter_arms, armsCatalog]
      · simp [getWorkoutForDay, filter_legs, legsCatalog]
      · simp [getWorkoutForDay, filter_shoulders, shouldersCatalog]
      · simp [getWorkoutForDay, filter_abs, absCatalog]
      · simp [getWorkoutForDay, filter_back, backCatalog]

lemma nextExercise_rest {st : AppState} (now : ℕ)
    (h : st.session.currentExerciseIndex < planLen st.session - 1) :
    nextExercise now st =
      { st with
        session :=
          { st.session with
            isResting := true,
            restTimeLeft := st.config.restDuration } } := by
  have h2 : st.session.currentExerciseIndex < (currentWorkout st.session).length - 1 := h
  simp only [nextExercise]
  rw [if_pos h2]

lemma nextExercise_complete {st : AppState} (now : ℕ)
    (h : ¬ st.session.currentExerciseIndex < planLen st.session - 1) :
    nextExercise now st =
      { st with
        lastStats :=
          some ⟨round ((currentWorkout st.session).foldl
              (fun acc ex => acc + calculateCalories st.weight ex.base.met 60) 0),
            (now - orNow st.session.startTime now) / 60000⟩,
        completedDays := recordCompletion st.completedDays st.session.currentDay,
        view := View.summary,
        session := { st.session with isActive := false } } := by
  have h2 : ¬ st.session.currentExerciseIndex < (currentWorkout st.session).length - 1 := h
  simp only [nextExercise]
  rw [if_neg h2]

lemma skipToNextExercise_adv {st : AppState}
    (h : st.session.currentExerciseIndex < planLen st.session - 1) :
    skipToNextExercise st =
      { st with
        session :=
          { st.session with
            isResting := false,
            currentExerciseIndex := st.session.currentExerciseIndex + 1 } } := by
  have h2 : st.session.currentExerciseIndex < (currentWorkout st.session).length - 1 := h
  simp only [skipToNextExercise]
  rw [if_pos h2]

lemma skipToNextExercise_stay {st : AppState}
    (h : ¬ st.session.currentExerciseIndex < planLen st.session - 1) :
    skipToNextExercise st = st := by
  have h2 : ¬ st.session.currentExerciseIndex < (currentWorkout st.session).length - 1 := h
  simp only [skipToNextExercise]
  rw [if_neg h2]

lemma previousExercise_back {st : AppState} (h : 0 < st.session.currentExerciseIndex) :
    previousExercise st =
      { st with
        session :=
          { st.session with
            isResting := false,
            currentExerciseIndex := st.session.currentExerciseIndex - 1 } } := by
  simp only [previousExercise]
  rw [if_pos h]

lemma previousExercise_stay {st : AppState} (h : ¬ 0 < st.session.currentExerciseIndex) :
    previousExercise st = st := by
  simp only [previousExercise]
  rw [if_neg h]

lemma restTimerStep_tick {st : AppState}
    (h : st.session.isActive = true ∧ st.session.isResting = true ∧
      0 < st.session.restTimeLeft) :
    restTimerStep st =
      { st with
        session := { st.session with restTimeLeft := st.session.restTimeLeft - 1 } } := by
  simp only [restTimerStep]
  rw [if_pos h]

lemma restTimerStep_advance {st : AppState}
    (h1 : ¬ (st.session.isActive = true ∧ st.session.isResting = true ∧
      0 < st.session.restTimeLeft))
    (h2 : st.session.restTimeLeft = 0 ∧ st.session.isResting = true) :
    restTimerStep st =
      { st with
        session :=
          { st.session with
            isResting := false,
            currentExerciseIndex := st.session.currentExerciseIndex + 1 } } := by
  simp only [restTimerStep]
  rw [if_neg h1, if_pos h2]

lemma restTimerStep_stay {st : AppState}
    (h1 : ¬ (st.session.isActive = true ∧ st.session.isResting = true ∧
      0 < st.session.restTimeLeft))
    (h2 : ¬ (st.session.restTimeLeft = 0 ∧ st.session.isResting = true)) :
    restTimerStep st = st := by
  simp only [restTimerStep]
  rw [if_neg h1, if_neg h2]

lemma inv_preserved {s t : AppState} (hs : Inv s) (hst : Step s t) : Inv t := by
  obtain ⟨h1, h2, h3⟩ := hs
  cases hst with
  | start day cat now st hcat =>
      have hpos := planLen_pos day cat hcat
      exact ⟨by simpa [startWorkout, planLen, currentWorkout] using hpos,
        by simpa [startWorkout, planLen, currentWorkout] using hpos,
        by intro hr; simp [startWorkout] at hr⟩
  | next now =>
      by_cases hlt : s.session.currentExerciseIndex < planLen s.session - 1
      · rw [nextExercise_rest now hlt]
        refine ⟨?_, ?_, ?_⟩
        · simp only [planLen_session_update_rest]
          omega
        · simp only [planLen_session_update_rest]
          exact h2
        · intro _
          simp only [planLen_session_update_rest]
          omega
      · rw [nextExercise_complete now hlt]
        refine ⟨?_, ?_, ?_⟩
        · simp only [planLen_session_update_active]
          exact h1
        · simp only [planLen_session_update_active]
          exact h2
        · intro hr
          simp only [planLen_session_update_active]
          exact h3 hr
  | skipForwardBtn =>
      by_cases hlt : s.session.currentExerciseIndex < planLen s.session - 1
      · rw [skipToNextExercise_adv hlt]
        refine ⟨?_, ?_, ?_⟩
        · simp only [planLen_session_update_idx]
          omega
        · simp only [planLen_session_update_idx]
          exact h2
        · intro hr
          simp at hr
      · rw [skipToNextExercise_stay hlt]
        exact ⟨h1, h2, h3⟩
  | skipBackwardBtn =>
      by_cases hlt : 0 < s.session.currentExerciseIndex
      · rw [previousExercise_back hlt]
        refine ⟨?_, ?_, ?_⟩
        · simp only [planLen_session_update_idx]
          omega
        · simp only [planLen_session_update_idx]
          exact h2
        · intro hr
          simp at hr
      · rw [previousExercise_stay hlt]
        exact ⟨h1, h2, h3⟩
  | timer =>
      by_cases ha : s.session.isActive = true ∧ s.session.isResting = true ∧
          0 < s.session.restTimeLeft
      · rw [restTimerStep_tick ha]
        refine ⟨?_, ?_, ?_⟩
        · simp only [planLen_session_update_left]
          exact h1
        · simp only [planLen_session_update_left]
          exact h2
        · intro hr
          simp only [planLen_session_update_left]
          exact h3 (by simpa using hr)
      · by_cases hb : s.session.restTimeLeft = 0 ∧ s.session.isResting = true
        · rw [restTimerStep_advance ha hb]
          refine ⟨?_, ?_, ?_⟩
          · simp only [planLen_session_update_idx]
            have := h3 hb.2
            omega
          · simp only [planLen_session_update_idx]
            exact h2
          · intro hr
            simp at hr
        · rw [restTimerStep_stay ha hb]
          exact ⟨h1, h2, h3⟩
  | skipRestBtn =>
      refine ⟨?_, ?_, ?_⟩
      · simpa [skipRest, planLen_session_update_left] using h1
      · simpa [skipRest, planLen_session_update_left] using h2
      · intro hr
        simp only [skipRest, planLen_session_update_left]
        exact h3 (by simpa [skipRest] using hr)
  | abortBtn => exact ⟨h1, h2, h3⟩
  | configBtn cfg => exact ⟨h1, h2, h3⟩
  | weightBtn w => exact ⟨h1, h2, h3⟩
  | viewBtn v => exact ⟨h1, h2, h3⟩

lemma reachable_inv {st : AppState} (h : Reachable st) : Inv st := by
  induction h with
  | init cfg w l v ls =>
      refine ⟨?_, ?_, ?_⟩
      · simp [initialSession, planLen, currentWorkout, getWorkoutForDay, CATEGORIES]
      · simp [initialSession, planLen, currentWorkout, getWorkoutForDay, CATEGORIES]
      · intro hr
        simp [initialSession] at hr
  | step _ hstep ih => exact inv_preserved ih hstep

lemma getWorkoutForDay_none_eq_spec (day : ℕ) :
    getWorkoutForDay day none = specGeneratePlan day := by
  simp only [getWorkoutForDay, specGeneratePlan, specItem, CATEGORIES, List.map_cons,
    List.map_nil, filter_arms, filter_legs, filter_shoulders, filter_abs, filter_back,
    intensity]

lemma foldl_add_calc (w : ℚ) (l : List PlanItem) :
    l.foldl (fun acc ex => acc + calculateCalories w ex.base.met 60) 0 =
      (l.map (fun it => it.base.met * w * (60 / 3600))).sum := by
  suffices h : ∀ a : ℚ,
      l.foldl (fun acc ex => acc + calculateCalories w ex.base.met 60) a =
        a + (l.map (fun it => it.base.met * w * (60 / 3600))).sum by
    simpa using h 0
  induction l with
  | nil => simp
  | cons x xs ih =>
      intro a
      rw [List.foldl_cons, ih, List.map_cons, List.sum_cons]
      simp only [calculateCalories]
      ring

/-- Claim C1: the ABORT handler of the source leaves the whole session record,
in particular its active flag, and the completion ledger unchanged, and only
navigates back to the dashboard; so on an active session it does NOT
deactivate, contradicting the deactivation half of the claim, while the
ledger-untouched half holds. -/
theorem claim_C1 :
    (∀ st : AppState,
      (abortWorkout st).session = st.session ∧
      (abortWorkout st).completedDays = st.completedDays ∧
      (abortWorkout st).view = View.dashboard) ∧
    (abortWorkout ⟨⟨true, 3, 1, true, 10, some 5000, none⟩, [1, 2], none,
      View.workout, ⟨30, 30⟩, 70⟩).session.isActive = true := by
  exact ⟨fun st => ⟨rfl, rfl, rfl⟩, rfl⟩

/-- Claim C2 counterexample: with ledger [5], day 3 lies on the displayed
phase grid and carries the locked overlay, although 3 is not greater than
nextAvailableDay [5] = 6; so the claimed equivalence fails as stated. -/
theorem claim_C2_counterexample :
    3 ∈ gridDays [5] ∧
    ¬ (lockedOverlayShown [5] 3 = true ↔ 3 > nextAvailableDay [5]) := by
  refine ⟨by decide, by decide⟩

/-- Claim C2 (amended): nextAvailableDay is max of the ledger plus one (one
for an empty ledger), and on a contiguous ledger holding exactly the days
1..k the locked overlay is shown exactly when the day exceeds
nextAvailableDay; on gapped ledgers the overlay condition is instead: day not
completed, day not the next day, and day greater than ledger size plus one. -/
theorem claim_C2 (k d : ℕ) :
    nextAvailableDay (ledgerUpTo k) = k + 1 ∧
    (lockedOverlayShown (ledgerUpTo k) d = true ↔ d > nextAvailableDay (ledgerUpTo k)) := by
  refine ⟨nextAvailableDay_ledgerUpTo k, ?_⟩
  rw [nextAvailableDay_ledgerUpTo]
  simp only [lockedOverlayShown, Bool.and_eq_true, Bool.not_eq_true',
    decide_eq_true_eq, beq_eq_false_iff_ne, ne_eq, length_ledgerUpTo,
    nextAvailableDay_ledgerUpTo, gt_iff_lt]
  simp only [List.contains]
  rw [show (List.elem d (ledgerUpTo k) = false) ↔ ¬ d ∈ ledgerUpTo k from by
    rw [Bool.eq_false_iff]
    exact not_congr List.elem_iff]
  rw [mem_ledgerUpTo]
  omega

/-- Claim C3: completing the last exercise deactivates the session, puts the
day into the ledger, and emits a summary whose calories are the rounded sum
over the plan of met times body weight times a nominal 60 seconds in hours,
and whose duration is the elapsed milliseconds since the start timestamp,
floored to whole minutes. -/
theorem claim_C3 (st : AppState) (now t0 : ℕ)
    (hlen : 0 < planLen st.session)
    (hidx : st.session.currentExerciseIndex = planLen st.session - 1)
    (hstart : st.session.startTime = some t0)
    (ht0 : 0 < t0) (hnow : t0 ≤ now) :
    (nextExercise now st).session.isActive = false ∧
    st.session.currentDay ∈ (nextExercise now st).completedDays ∧
    (nextExercise now st).lastStats =
      some ⟨round (((currentWorkout st.session).map
          (fun it => it.base.met * st.weight * (60 / 3600))).sum),
        (now - t0) / 60000⟩ := by
  rw [nextExercise_complete now (by omega)]
  have horn : orNow st.session.startTime now = t0 := by
    rw [hstart]
    simp only [orNow]
    rw [if_neg (by omega)]
  refine ⟨rfl, mem_recordCompletion_self st.completedDays st.session.currentDay, ?_⟩
  rw [horn, foldl_add_calc]

/-- Witness for claim C3 at a concrete last-exercise session. -/
theorem claim_C3_witness :
    (nextExercise 121000 sampleLast).session.isActive = false ∧
    sampleLast.session.currentDay ∈ (nextExercise 121000 sampleLast).completedDays ∧
    (nextExercise 121000 sampleLast).lastStats =
      some ⟨round (((currentWorkout sampleLast.session).map
          (fun it => it.base.met * sampleLast.weight * (60 / 3600))).sum),
        (121000 - 1000) / 60000⟩ :=
  claim_C3 sampleLast 121000 1000 (by decide) (by decide) rfl (by decide) (by decide)

/-- Claim C4: the no-focus plan equals, for every day, the plan described by
the specification (one item per category in the fixed order, rotation index
day mod category size, reps scaled by the day intensity and rounded), it has
one item per category, and at day 1 every rep target equals the baseline. -/
theorem claim_C4 (day : ℕ) (h : 1 ≤ day) :
    getWorkoutForDay day none = specGeneratePlan day ∧
    (getWorkoutForDay day none).length = CATEGORIES.length ∧
    (getWorkoutForDay 1 none).map (fun it => it.reps) =
      (getWorkoutForDay 1 none).map (fun it => it.base.baseReps) := by
  refine ⟨getWorkoutForDay_none_eq_spec day, by simp [getWorkoutForDay], ?_⟩
  simp [getWorkoutForDay, CATEGORIES, filter_arms, filter_legs, filter_shoulders,
    filter_abs, filter_back, armsCatalog, legsCatalog, shouldersCatalog, absCatalog,
    backCatalog, intensity]

/-- Witness for claim C4 at day 1. -/
theorem claim_C4_witness :
    getWorkoutForDay 1 none = specGeneratePlan 1 ∧
    (getWorkoutForDay 1 none).length = CATEGORIES.length ∧
    (getWorkoutForDay 1 none).map (fun it => it.reps) =
      (getWorkoutForDay 1 none).map (fun it => it.base.baseReps) :=
  claim_C4 1 (by decide)

/-- Claim C5: from an active resting session with one second left and not on
the last exercise, one timer step brings the countdown to zero while still
resting, and the following step leaves the rest state and advances the
exercise index by exactly one. -/
theorem claim_C5 (st : AppState)
    (hA : st.session.isActive = true) (hR : st.session.isResting = true)
    (hT : st.session.restTimeLeft = 1)
    (hL : st.session.currentExerciseIndex + 1 < planLen st.session) :
    (restTimerStep st).session.restTimeLeft = 0 ∧
    (restTimerStep st).session.isResting = true ∧
    (restTimerStep st).session.currentExerciseIndex =
      st.session.currentExerciseIndex ∧
    (restTimerStep (restTimerStep st)).session.isResting = false ∧
    (restTimerStep (restTimerStep st)).session.currentExerciseIndex =
      st.session.currentExerciseIndex + 1 ∧
    (restTimerStep (restTimerStep st)).session.restTimeLeft = 0 := by
  have h1 := restTimerStep_tick ⟨hA, hR, by omega⟩
  have e0 : (restTimerStep st).session.restTimeLeft = 0 := by
    rw [h1]
    simp [hT]
  have e1 : (restTimerStep st).session.isResting = true := by
    rw [h1]
    simpa using hR
  have e2 : (restTimerStep st).session.currentExerciseIndex =
      st.session.currentExerciseIndex := by
    rw [h1]
  have hno : ¬ ((restTimerStep st).session.isActive = true ∧
      (restTimerStep st).session.isResting = true ∧
      0 < (restTimerStep st).session.restTimeLeft) := by
    rintro ⟨-, -, hc⟩
    omega
  have h2 := @restTimerStep_advance (restTimerStep st) hno ⟨e0, e1⟩
  refine ⟨e0, e1, e2, ?_, ?_, ?_⟩
  · rw [h2]
  · rw [h2]
    simpa using e2
  · rw [h2]
    simpa using e0

/-- Witness for claim C5 at a concrete resting session with one second left. -/
theorem claim_C5_witness :
    (restTimerStep sampleResting).session.restTimeLeft = 0 ∧
    (restTimerStep sampleResting).session.isResting = true ∧
    (restTimerStep sampleResting).session.currentExerciseIndex =
      sampleResting.session.currentExerciseIndex ∧
    (restTimerStep (restTimerStep sampleResting)).session.isResting = false ∧
    (restTimerStep (restTimerStep sampleResting)).session.currentExerciseIndex =
      sampleResting.session.currentExerciseIndex + 1 ∧
    (restTimerStep (restTimerStep sampleResting)).session.restTimeLeft = 0 :=
  claim_C5 sampleResting rfl rfl rfl (by decide)

/-- Claim C6: in every reachable app state the exercise index is strictly
below the plan length (it is a natural, so nonnegative by construction), and
skipBackward at index 0 and skipForward at the last index leave the state
entirely unchanged. -/
theorem claim_C6 (st : AppState) :
    (Reachable st → st.session.currentExerciseIndex < planLen st.session) ∧
    (st.session.currentExerciseIndex = 0 → previousExercise st = st) ∧
    (st.session.currentExerciseIndex = planLen st.session - 1 →
      skipToNextExercise st = st) := by
  refine ⟨fun h => (reachable_inv h).1,
    fun h0 => previousExercise_stay (by omega),
    fun hl => skipToNextExercise_stay (by omega)⟩

/-- Witness for claim C6: the initial state is reachable and in range, and the
two boundary skips are no-ops on concrete states. -/
theorem claim_C6_witness :
    sampleInit.session.currentExerciseIndex < planLen sampleInit.session ∧
    previousExercise sampleInit = sampleInit ∧
    skipToNextExercise sampleLast = sampleLast :=
  ⟨(claim_C6 sampleInit).1 (Reachable.init ⟨30, 30⟩ 70 [] View.dashboard none),
   (claim_C6 sampleInit).2.1 rfl,
   (claim_C6 sampleLast).2.2 (by decide)⟩

/-- Claim C7: completing a non-last exercise enters the rest state with the
configured rest duration and an unchanged exercise index, and no single
transition of the machine ends resting with a changed index: whenever a step
lands in a resting state, the index is the same as before the step. -/
theorem claim_C7 :
    (∀ (st : AppState) (now : ℕ), st.session.isActive = true →
      st.session.currentExerciseIndex + 1 < planLen st.session →
      (nextExercise now st).session.isResting = true ∧
      (nextExercise now st).session.restTimeLeft = st.config.restDuration ∧
      (nextExercise now st).session.currentExerciseIndex =
        st.session.currentExerciseIndex) ∧
    (∀ s t : AppState, Step s t → t.session.isResting = true →
      t.session.currentExerciseIndex = s.session.currentExerciseIndex) := by
  constructor
  · intro st now hA hlt
    rw [nextExercise_rest now (by omega)]
    exact ⟨rfl, rfl, rfl⟩
  · intro s t hst hr
    cases hst with
    | start day cat now st hcat => simp [startWorkout] at hr
    | next now =>
        by_cases hlt : s.session.currentExerciseIndex < planLen s.session - 1
        · rw [nextExercise_rest now hlt]
        · rw [nextExercise_complete now hlt]
    | skipForwardBtn =>
        by_cases hlt : s.session.currentExerciseIndex < planLen s.session - 1
        · rw [skipToNextExercise_adv hlt] at hr
          simp at hr
        · rw [skipToNextExercise_stay hlt]
    | skipBackwardBtn =>
        by_cases hlt : 0 < s.session.currentExerciseIndex
        · rw [previousExercise_back hlt] at hr
          simp at hr
        · rw [previousExercise_stay hlt]
    | timer =>
        by_cases ha : s.session.isActive = true ∧ s.session.isResting = true ∧
            0 < s.session.restTimeLeft
        · rw [restTimerStep_tick ha]
        · by_cases hb : s.session.restTimeLeft = 0 ∧ s.session.isResting = true
          · rw [restTimerStep_advance ha hb] at hr
            simp at hr
          · rw [restTimerStep_stay ha hb]
    | skipRestBtn => rfl
    | abortBtn => rfl
    | configBtn cfg => rfl
    | weightBtn w => rfl
    | viewBtn v => rfl

/-- Witness for claim C7: the rest entry on a concrete active session, and a
concrete resting timer tick keeping the index. -/
theorem claim_C7_witness :
    (nextExercise 0 sampleActive).session.isResting = true ∧
    (nextExercise 0 sampleActive).session.restTimeLeft =
      sampleActive.config.restDuration ∧
    (nextExercise 0 sampleActive).session.currentExerciseIndex =
      sampleActive.session.currentExerciseIndex ∧
    (restTimerStep sampleRestTen).session.currentExerciseIndex =
      sampleRestTen.session.currentExerciseIndex := by
  obtain ⟨a, b, c⟩ := claim_C7.1 sampleActive 0 rfl (by decide)
  exact ⟨a, b, c,
    claim_C7.2 sampleRestTen (restTimerStep sampleRestTen)
      (Step.timer sampleRestTen) (by decide)⟩

/-- Claim C8: inserting a day into the ledger is idempotent, and re-adding an
already-present day to a duplicate-free ledger changes nothing. -/
theorem claim_C8 (l : List ℕ) (d : ℕ) :
    recordCompletion (recordCompletion l d) d = recordCompletion l d ∧
    (l.Nodup → d ∈ l → recordCompletion l d = l) := by
  constructor
  · rw [recordCompletion_eq_jsIns (recordCompletion l d) d,
      jsSetDedup_of_nodup (nodup_recordCompletion l d),
      jsIns_of_mem (mem_recordCompletion_self l d)]
  · intro hn hd
    rw [recordCompletion_eq_jsIns, jsSetDedup_of_nodup hn, jsIns_of_mem hd]

/-- Witness for claim C8 on the concrete ledger [1, 2] and day 2. -/
theorem claim_C8_witness :
    recordCompletion (recordCompletion [1, 2] 2) 2 = recordCompletion [1, 2] 2 ∧
    recordCompletion [1, 2] 2 = [1, 2] :=
  ⟨(claim_C8 [1, 2] 2).1, (claim_C8 [1, 2] 2).2 (by decide) (by decide)⟩

/-- Claim C9: the derived phase values are the stated formulas (phase is the
floor of ledger size over 30 plus one, offset is 30 times phase minus one,
progress counts ledger days inside the phase window), and on the ledger
1..35 the phase is 2 and the progress is 5. -/
theorem claim_C9 (l : List ℕ) :
    currentPhase l = l.length / 30 + 1 ∧
    phaseDayOffset l = (currentPhase l - 1) * 30 ∧
    phaseProgress l =
      l.countP (fun d => decide (phaseDayOffset l < d ∧ d ≤ phaseDayOffset l + 30)) ∧
    currentPhase (ledgerUpTo 35) = 2 ∧
    phaseProgress (ledgerUpTo 35) = 5 := by
  refine ⟨rfl, rfl, ?_, by decide, by decide⟩
  rw [phaseProgress, ← List.countP_eq_length_filter]
  simp [Bool.decide_and]

/-- Claim C10: completing the last exercise changes only the active flag of
the session: day, index, resting flag, rest countdown, start time and focus
category are all preserved, and the flag becomes false. -/
theorem claim_C10 (st : AppState) (now : ℕ)
    (hlen : 0 < planLen st.session)
    (hidx : st.session.currentExerciseIndex = planLen st.session - 1) :
    (nextExercise now st).session.currentDay = st.session.currentDay ∧
    (nextExercise now st).session.currentExerciseIndex =
      st.session.currentExerciseIndex ∧
    (nextExercise now st).session.isResting = st.session.isResting ∧
    (nextExercise now st).session.restTimeLeft = st.session.restTimeLeft ∧
    (nextExercise now st).session.startTime = st.session.startTime ∧
    (nextExercise now st).session.focusCategory = st.session.focusCategory ∧
    (nextExercise now st).session.isActive = false := by
  rw [nextExercise_complete now (by omega)]
  exact ⟨rfl, rfl, rfl, rfl, rfl, rfl, rfl⟩

/-- Witness for claim C10 at a concrete last-exercise session. -/
theorem claim_C10_witness :
    (nextExercise 5000 sampleLast).session.currentDay =
      sampleLast.session.currentDay ∧
    (nextExercise 5000 sampleLast).session.currentExerciseIndex =
      sampleLast.session.currentExerciseIndex ∧
    (nextExercise 5000 sampleLast).session.isResting =
      sampleLast.session.isResting ∧
    (nextExercise 5000 sampleLast).session.restTimeLeft =
      sampleLast.session.restTimeLeft ∧
    (nextExercise 5000 sampleLast).session.startTime =
      sampleLast.session.startTime ∧
    (nextExercise 5000 sampleLast).session.focusCategory =
      sampleLast.session.focusCategory ∧
    (nextExercise 5000 sampleLast).session.isActive = false :=
  claim_C10 sampleLast 5000 (by decide) (by decide)

end RedCard
